import Mathlib

/-!
Verification of the Expiration & Storage-Accounting Engine of the
online-netdisk repository.

The durable data model and its constraints are embedded from
`database/migrations/001_initial_schema.sql`:
  * table `files` (columns relevant to accounting: id, user_id, size,
    is_deleted, expires_at; `size > 0` is a CHECK, ids are primary keys),
  * table `users` (id, storage_used),
  * table `shares` (id, file_id, user_id, download_count, download_limit,
    is_active, expires_at),
  * table `folders` with constraint
    `unique_folder_name_per_parent UNIQUE (user_id, parent_id, name, is_deleted)`,
  * table `expiry_tasks` with constraint
    `unique_unprocessed_task UNIQUE (task_type, target_id, is_processed)`,
  * functions `calculate_user_storage_usage` and `update_user_storage_usage`
    with trigger `trigger_update_user_storage_usage`
    (AFTER INSERT OR UPDATE OR DELETE ON files).

UUID keys are modelled as `Nat`; SQL timestamps as `Nat` instants; nullable
columns that matter to the claims as `Option _`.  SQL `UNIQUE` treats NULLs
as distinct, so the embedded uniqueness constraints compare nullable columns
with a null-rejecting equality.  The request-side cache of
`client/src/services/api.ts` is embedded further below.  The Expiration
Sweeper, Task Registry query and share-download paths are not present under
the repository sources (only the schema and clients are); those operations
are modelled from the spec and are marked as such in their doc comments.
-/

inductive TaskKind : Type
  | file
  | share
  deriving DecidableEq, Repr

/-- A row of `expiry_tasks`: id, task_type, target_id, expires_at,
is_processed (nullable BOOLEAN with default false), processed_at. -/
structure TaskRow : Type where
  id : Nat
  taskType : TaskKind
  targetId : Nat
  expiresAt : Nat
  isProcessed : Option Bool
  processedAt : Option Nat
  deriving DecidableEq, Repr

/-- A row of `files`, restricted to the columns the accounting engine
reads: id, user_id, size, is_deleted, expires_at.  The remaining columns
(name, paths, mime type, timestamps) play no role in any claim and are
omitted. -/
structure FileRow : Type where
  id : Nat
  userId : Nat
  size : Nat
  isDeleted : Bool
  expiresAt : Option Nat
  deriving DecidableEq, Repr

/-- A row of `users`, restricted to id and storage_used. -/
structure UserRow : Type where
  id : Nat
  storageUsed : Nat
  deriving DecidableEq, Repr

/-- A row of `shares`, restricted to the lifecycle columns. -/
structure ShareRow : Type where
  id : Nat
  fileId : Nat
  userId : Nat
  downloadCount : Nat
  downloadLimit : Option Nat
  isActive : Bool
  expiresAt : Option Nat
  deriving DecidableEq, Repr

/-- A row of `folders`, restricted to the columns in the constraint
`unique_folder_name_per_parent` (plus the id).  `parent_id` and
`is_deleted` are nullable in the schema. -/
structure FolderRow : Type where
  id : Nat
  userId : Nat
  parentId : Option Nat
  name : String
  isDeleted : Option Bool
  deriving DecidableEq, Repr

/-- The persisted state of the entity store. -/
structure DB : Type where
  users : List UserRow
  files : List FileRow
  shares : List ShareRow
  tasks : List TaskRow
  deriving DecidableEq, Repr

/-- SQL `UNIQUE` duplicate test on one nullable column: two values collide
only when both are non-NULL and equal (`NULL = NULL` is unknown, so NULLs
are pairwise distinct). -/
def sqlUniqueEq {α : Type} [DecidableEq α] (a b : Option α) : Bool :=
  match a, b with
  | some x, some y => decide (x = y)
  | _, _ => false

/-- Two `expiry_tasks` rows collide under
`CONSTRAINT unique_unprocessed_task UNIQUE (task_type, target_id, is_processed)`. -/
def taskConflict (a b : TaskRow) : Bool :=
  decide (a.taskType = b.taskType) && decide (a.targetId = b.targetId) &&
    sqlUniqueEq a.isProcessed b.isProcessed

/-- The table state admitted by `unique_unprocessed_task`: no two rows
collide. -/
def unique_unprocessed_task : List TaskRow → Bool
  | [] => true
  | x :: xs => xs.all (fun y => !taskConflict x y) && unique_unprocessed_task xs

/-- Two `folders` rows collide under
`CONSTRAINT unique_folder_name_per_parent UNIQUE (user_id, parent_id, name, is_deleted)`. -/
def folderConflict (a b : FolderRow) : Bool :=
  decide (a.userId = b.userId) && sqlUniqueEq a.parentId b.parentId &&
    decide (a.name = b.name) && sqlUniqueEq a.isDeleted b.isDeleted

/-- The table state admitted by `unique_folder_name_per_parent`. -/
def unique_folder_name_per_parent : List FolderRow → Bool
  | [] => true
  | x :: xs => xs.all (fun y => !folderConflict x y) && unique_folder_name_per_parent xs

/-- The rows selected by
`SELECT ... FROM files WHERE user_id = user_uuid AND is_deleted = false`. -/
def liveUserFiles (db : DB) (uid : Nat) : List FileRow :=
  db.files.filter (fun f => decide (f.userId = uid) && !f.isDeleted)

/-- SQL `SUM(size)` over a selected row set: NULL when no row is selected,
otherwise the sum. -/
def sqlSumSizes : List FileRow → Option Nat
  | [] => none
  | f :: fs => some (((f :: fs).map FileRow.size).sum)

/-- `calculate_user_storage_usage(user_uuid)`:
`SELECT COALESCE(SUM(size), 0) ... WHERE user_id = user_uuid AND is_deleted = false`. -/
def calculate_user_storage_usage (db : DB) (uid : Nat) : Nat :=
  (sqlSumSizes (liveUserFiles db uid)).getD 0

/-- `UPDATE users SET storage_used = v WHERE id = uid`. -/
def setStorageUsed (db : DB) (uid v : Nat) : DB :=
  { db with
    users := db.users.map (fun u => if u.id = uid then { u with storageUsed := v } else u) }

/-- The body of trigger function `update_user_storage_usage()`:
`UPDATE users SET storage_used = calculate_user_storage_usage(r.user_id)
WHERE id = r.user_id`, where `r` is NEW for INSERT and UPDATE and OLD for
DELETE.  The caller passes that row's user id. -/
def update_user_storage_usage (db : DB) (uid : Nat) : DB :=
  setStorageUsed db uid (calculate_user_storage_usage db uid)

/-- INSERT one row into `files`; `trigger_update_user_storage_usage` then
runs `update_user_storage_usage` with NEW.user_id. -/
def insertFile (db : DB) (f : FileRow) : DB :=
  update_user_storage_usage { db with files := db.files ++ [f] } f.userId

/-- UPDATE the `files` row whose id is `newF.id` to `newF`; the trigger
then runs `update_user_storage_usage` with NEW.user_id — and only with
NEW.user_id, exactly as the source trigger does. -/
def updateFile (db : DB) (newF : FileRow) : DB :=
  update_user_storage_usage
    { db with files := db.files.map (fun x => if x.id = newF.id then newF else x) }
    newF.userId

/-- DELETE one row from `files` by id; the trigger then runs
`update_user_storage_usage` with OLD.user_id. -/
def deleteFile (db : DB) (fid : Nat) : DB :=
  match db.files.find? (fun x => decide (x.id = fid)) with
  | some old =>
      update_user_storage_usage
        { db with files := db.files.filter (fun x => !decide (x.id = fid)) } old.userId
  | none => db

/-- The spec's storage aggregate invariant: every user's persisted
`storage_used` equals the recomputed sum over their non-deleted files. -/
def storageInvariant (db : DB) : Bool :=
  db.users.all (fun u => u.storageUsed == calculate_user_storage_usage db u.id)

/-- Concrete state for the C8 witness: user 3 owns only a soft-deleted
file, so the live-file selection is empty. -/
def c8db : DB := ⟨[⟨3, 42⟩], [⟨10, 3, 100, true, none⟩], [], []⟩

/-- Initial state for C1: user 1 owns the single live file 10 (size 100)
and the persisted aggregates are exact. -/
def c1db : DB := ⟨[⟨1, 100⟩, ⟨2, 0⟩], [⟨10, 1, 100, false, none⟩], [], []⟩

/-- Initial state for C5: user 1 owns the single live file 20 (size 250). -/
def c5db : DB := ⟨[⟨1, 250⟩, ⟨2, 0⟩], [⟨20, 1, 250, false, none⟩], [], []⟩

/-- The settled state after the ownership-change UPDATE of file 20 from
user 1 to user 2. -/
def c5post : DB := updateFile c5db ⟨20, 2, 250, false, none⟩

/-- Modelled from the spec: the Sweeper claim write (its §4.4 step 2
`conditionalUpdate` on `processed=false` to `processed=true`), together
with the `processed_at` stamp of the `expiry_tasks` schema. -/
def markProcessed (now : Nat) (db : DB) (tid : Nat) : DB :=
  { db with
    tasks := db.tasks.map (fun t =>
      if t.id = tid then { t with isProcessed := some true, processedAt := some now } else t) }

/-- Modelled from the spec (its §4.4 step 3, kind = file): soft-delete the
target file through the Entity Store update — which fires the schema's
storage trigger for NEW.user_id — treating a vanished target as `NotFound`
and a no-op (spec §7). -/
def applyFileExpiry (db : DB) (targetId : Nat) : DB :=
  match db.files.find? (fun x => decide (x.id = targetId)) with
  | some fr => updateFile db { fr with isDeleted := true }
  | none => db

/-- Modelled from the spec (its §4.4 step 3, kind = share): deactivate the
target share (`is_active = false`); a vanished target is a no-op. -/
def applyShareExpiry (db : DB) (targetId : Nat) : DB :=
  { db with
    shares := db.shares.map (fun s =>
      if s.id = targetId then { s with isActive := false } else s) }

/-- Modelled from the spec (its §4.4 steps 2 and 3): claim one task of the
sweep snapshot — only a task that is unprocessed (`is_processed = false`,
not NULL) and due as of `now` is claimed — then mark it processed and apply
the business effect for its kind.  In this sequential single-sweeper
embedding the snapshot row still equals the stored row when the sweep
reaches it, so the claim test reads the snapshot. -/
def claimAndProcess (now : Nat) (db : DB) (t : TaskRow) : DB :=
  if t.isProcessed = some false ∧ t.expiresAt ≤ now then
    let db1 := markProcessed now db t.id
    match t.taskType with
    | TaskKind.file => applyFileExpiry db1 t.targetId
    | TaskKind.share => applyShareExpiry db1 t.targetId
  else db

/-- Modelled from the spec (its §4.4): one sweep cycle processes every due
task of the snapshot taken at cycle start (a batch `limit` at least the
number of due tasks). -/
def sweepCycle (now : Nat) (db : DB) : DB :=
  db.tasks.foldl (claimAndProcess now) db

/-- Bookkeeping predicate for the sweep proof: during a cycle, the rows of
the watched owner, file and task have the given values, file ids and owners
are unchanged, and the owner's live-file selection is the given list. -/
def sweepPack (db0 : DB) (owner fid tid : Nat) (U : UserRow) (F : FileRow) (T : TaskRow)
    (L : List FileRow) (s : DB) : Prop :=
  s.users.find? (fun x => decide (x.id = owner)) = some U ∧
  s.files.find? (fun x => decide (x.id = fid)) = some F ∧
  s.tasks.find? (fun x => decide (x.id = tid)) = some T ∧
  s.files.map (fun x => (x.id, x.userId)) = db0.files.map (fun x => (x.id, x.userId)) ∧
  liveUserFiles s owner = L

/-- Modelled from the spec (its §4.3 ordering rule): tasks are ordered by
due time ascending with ties broken by task identity. -/
def taskLE (a b : TaskRow) : Prop :=
  a.expiresAt < b.expiresAt ∨ (a.expiresAt = b.expiresAt ∧ a.id ≤ b.id)

instance : DecidableRel taskLE := fun a b =>
  inferInstanceAs (Decidable (a.expiresAt < b.expiresAt ∨
    (a.expiresAt = b.expiresAt ∧ a.id ≤ b.id)))

instance : IsTotal TaskRow taskLE :=
  ⟨fun a b => by unfold taskLE; omega⟩

instance : IsTrans TaskRow taskLE :=
  ⟨fun a b c hab hbc => by unfold taskLE at hab hbc ⊢; omega⟩

/-- Strict version of the registry order: the returned sequence is pairwise
strictly increasing in (dueAt, id), hence uniquely determined. -/
def taskLT (a b : TaskRow) : Prop :=
  a.expiresAt < b.expiresAt ∨ (a.expiresAt = b.expiresAt ∧ a.id < b.id)

/-- Modelled from the spec (its §4.3): `dueTasks(asOf, limit)` — the
unprocessed tasks with `dueAt <= asOf`, ordered by due time ascending with
ties broken by id, capped at `limit`. -/
def dueTasks (asOf lim : Nat) (tasks : List TaskRow) : List TaskRow :=
  ((tasks.filter (fun t =>
    decide (t.isProcessed = some false ∧ t.expiresAt ≤ asOf))).insertionSort taskLE).take lim

/-- Modelled from the spec (its §3 Share invariant and §8 scenarios): one
download attempt against a share.  An inactive share rejects; with a limit,
an attempt below the limit increments the counter and deactivates the share
the moment the limit is reached; an attempt at or past the limit is
rejected and the share is deactivated, the counter untouched. -/
def recordDownload (s : ShareRow) : Bool × ShareRow :=
  if s.isActive = false then (false, s)
  else
    match s.downloadLimit with
    | none => (true, { s with downloadCount := s.downloadCount + 1 })
    | some lim =>
        if s.downloadCount < lim then
          (true, { s with downloadCount := s.downloadCount + 1,
                          isActive := decide (s.downloadCount + 1 < lim) })
        else (false, { s with isActive := false })

/-- One download attempt moves a share to the returned state. -/
def shareStep (a b : ShareRow) : Prop := b = (recordDownload a).2

/-- Share states reachable through download attempts. -/
def shareReachable : ShareRow → ShareRow → Prop := Relation.ReflTransGen shareStep

/-- CACHE_DURATION of `client/src/services/api.ts` (5000 ms). -/
def cacheWindowMs : Nat := 5000

/-- The `RequestConfig` of `api.ts`: optional method (defaulted to GET),
headers, and the request body — modelled by its JSON serialisation, with
`JSON.stringify(config.body || \x7b\x7d)` defaulting to the empty object
text. -/
structure RequestConfig : Type where
  method : Option String
  headers : List (String × String)
  bodyJson : Option String
  deriving DecidableEq, Repr

/-- One entry of `requestCache`: the promise stored under a cache key, with
its insertion instant; the `setTimeout` eviction makes it visible for
exactly `CACHE_DURATION` after insertion.  Promises are modelled by distinct
numeric identities. -/
structure CacheEntry : Type where
  key : String
  pid : Nat
  insertedAt : Nat
  deriving DecidableEq, Repr

/-- The client-side request machinery state: the live cache, a fresh
promise-id supply, and the count of HTTP requests actually executed. -/
structure ApiState : Type where
  cache : List CacheEntry
  nextId : Nat
  executed : Nat
  deriving DecidableEq, Repr

/-- `getCacheKey` of `api.ts`: `method:endpoint:stringifiedBody` with the
source's defaults. -/
def getCacheKey (endpoint : String) (cfg : RequestConfig) : String :=
  cfg.method.getD "GET" ++ ":" ++ endpoint ++ ":" ++ cfg.bodyJson.getD "\x7b\x7d"

/-- Lookup of `requestCache.has/get`: an entry is visible while its
eviction timer (insertion + CACHE_DURATION) has not fired. -/
def cacheLookup (cache : List CacheEntry) (key : String) (now : Nat) : Option Nat :=
  (cache.find? (fun e =>
    decide (e.key = key) && decide (now < e.insertedAt + cacheWindowMs))).map CacheEntry.pid

/-- `apiRequest` of `api.ts`: a GET request first consults the cache and
returns the in-flight promise on a hit; on a miss it executes the request,
caches the promise under the key and schedules its eviction.  A non-GET
request always executes. -/
def apiRequest (now : Nat) (endpoint : String) (cfg : RequestConfig) (st : ApiState) :
    Nat × ApiState :=
  if cfg.method.getD "GET" = "GET" then
    match cacheLookup st.cache (getCacheKey endpoint cfg) now with
    | some pid => (pid, st)
    | none =>
        (st.nextId,
         ⟨⟨getCacheKey endpoint cfg, st.nextId, now⟩ :: st.cache,
          st.nextId + 1, st.executed + 1⟩)
  else (st.nextId, ⟨st.cache, st.nextId + 1, st.executed + 1⟩)


/-- Concrete state for the C3 witness: user 1 owns live file 10 of size
500 expiring at instant 100, with its single unprocessed expiration task
20, and an exact persisted aggregate. -/
def c3db : DB :=
  ⟨[⟨1, 500⟩], [⟨10, 1, 500, false, some 100⟩], [],
   [⟨20, TaskKind.file, 10, 100, some false, none⟩]⟩

/-- Concrete task table for the C7 witness: two due unprocessed tasks with
equal due times (ids 2 and 3), one not yet due (id 5), one processed
(id 4). -/
def c7tasks : List TaskRow :=
  [⟨5, TaskKind.file, 1, 30, some false, none⟩,
   ⟨3, TaskKind.share, 2, 10, some false, none⟩,
   ⟨4, TaskKind.file, 9, 10, some true, some 12⟩,
   ⟨2, TaskKind.file, 7, 10, some false, none⟩]

/-- Concrete share for the C4 witness: fresh, active, limit 2. -/
def c4share : ShareRow := ⟨1, 10, 1, 0, some 2, true, none⟩

/-- COALESCE(SUM(size), 0) over a row set is just the (Nat) sum of sizes. -/
theorem sqlSumSizes_getD (l : List FileRow) :
    (sqlSumSizes l).getD 0 = (l.map FileRow.size).sum := by
  cases l with
  | nil => rfl
  | cons f fs => rfl

/-- A pairwise reading of a satisfied uniqueness checker. -/
theorem unique_unprocessed_task_pairwise {l : List TaskRow}
    (h : unique_unprocessed_task l = true) :
    l.Pairwise (fun a b => taskConflict a b = false) := by
  induction l with
  | nil => exact List.Pairwise.nil
  | cons x xs ih =>
      rw [unique_unprocessed_task, Bool.and_eq_true, List.all_eq_true] at h
      refine List.Pairwise.cons (fun y hy => ?_) (ih h.2)
      have := h.1 y hy
      simpa using this

/-- If no two rows of a list jointly satisfy `p`, at most one row
satisfies `p`. -/
theorem filter_length_le_one {α : Type} {p : α → Bool} {l : List α}
    (h : l.Pairwise (fun a b => ¬(p a = true ∧ p b = true))) :
    (l.filter p).length ≤ 1 := by
  induction l with
  | nil => simp
  | cons x xs ih =>
      rw [List.pairwise_cons] at h
      by_cases hx : p x = true
      · have hxs : xs.filter p = [] := by
          rw [List.filter_eq_nil_iff]
          intro y hy hyp
          exact h.1 y hy ⟨hx, hyp⟩
        simp [List.filter_cons, hx, hxs]
      · simp only [List.filter_cons, hx]
        simpa using ih h.2

/-- `find?` by key commutes with a key-preserving map. -/
theorem find?_map_of_key {α : Type} (key : α → Nat) (g : α → α)
    (hg : ∀ x, key (g x) = key x) (k : Nat) (l : List α) :
    (l.map g).find? (fun x => decide (key x = k)) =
      (l.find? (fun x => decide (key x = k))).map g := by
  induction l with
  | nil => rfl
  | cons x xs ih =>
      by_cases hx : key x = k
      · simp [List.find?_cons, hg, hx]
      · simp [List.find?_cons, hg, hx, ih]

/-- Inside a list whose mapped keys are nodup, the key determines the
element. -/
theorem eq_of_key_eq_of_nodup {α : Type} (key : α → Nat) {l : List α}
    (h : (l.map key).Nodup) {a b : α} (ha : a ∈ l) (hb : b ∈ l)
    (hk : key a = key b) : a = b :=
  List.inj_on_of_nodup_map h ha hb hk

/-- C2: for every (kind, target) pair, at most one unprocessed expiration
task exists at any observable instant; this is forced by the store-level
constraint `unique_unprocessed_task UNIQUE (task_type, target_id, is_processed)`
alone — any table state the constraint admits has at most one row with the
given kind, target and `is_processed = false`. -/
theorem c2_store_level_unprocessed_uniqueness (l : List TaskRow) (k : TaskKind) (tgt : Nat)
    (h : unique_unprocessed_task l = true) :
    (l.filter (fun t =>
      decide (t.taskType = k ∧ t.targetId = tgt ∧ t.isProcessed = some false))).length ≤ 1 := by
  apply filter_length_le_one
  refine List.Pairwise.imp ?_ (unique_unprocessed_task_pairwise h)
  intro a b hab hcontra
  rcases hcontra with ⟨hA, hB⟩
  rw [decide_eq_true_eq] at hA hB
  obtain ⟨ha1, ha2, ha3⟩ := hA
  obtain ⟨hb1, hb2, hb3⟩ := hB
  simp [taskConflict, sqlUniqueEq, ha1, ha2, ha3, hb1, hb2, hb3] at hab

/-- Witness for C2 at a concrete two-row table (one unprocessed, one
processed row for the same target). -/
theorem c2_store_level_unprocessed_uniqueness_witness :
    unique_unprocessed_task
        [(⟨1, TaskKind.file, 5, 10, some false, none⟩ : TaskRow),
         ⟨2, TaskKind.file, 5, 99, some true, some 99⟩] = true ∧
    ([(⟨1, TaskKind.file, 5, 10, some false, none⟩ : TaskRow),
      ⟨2, TaskKind.file, 5, 99, some true, some 99⟩].filter (fun t =>
        decide (t.taskType = TaskKind.file ∧ t.targetId = 5 ∧
          t.isProcessed = some false))).length ≤ 1 :=
  ⟨by decide, c2_store_level_unprocessed_uniqueness _ TaskKind.file 5 (by decide)⟩

/-- C6 counterexample: the constraint `unique_unprocessed_task` is over
`(task_type, target_id, is_processed)`, so a second *processed* row for the
same (kind, target) already violates it — the claimed state with `n = 2`
processed rows for one target is rejected by the store, not reachable. -/
theorem c6_counterexample :
    unique_unprocessed_task
        [(⟨1, TaskKind.file, 5, 10, some true, some 10⟩ : TaskRow),
         ⟨2, TaskKind.file, 5, 12, some true, some 12⟩] = false := by decide

/-- C6 (amended): the constraint limits every (kind, target) pair to at
most one *processed* row as well — any admitted table state has at most one
row with the given kind, target and `is_processed = true`; only rows with
NULL `is_processed` are unbounded, because SQL UNIQUE treats NULLs as
distinct. -/
theorem c6_processed_rows_capped (l : List TaskRow) (k : TaskKind) (tgt : Nat)
    (h : unique_unprocessed_task l = true) :
    (l.filter (fun t =>
      decide (t.taskType = k ∧ t.targetId = tgt ∧ t.isProcessed = some true))).length ≤ 1 := by
  apply filter_length_le_one
  refine List.Pairwise.imp ?_ (unique_unprocessed_task_pairwise h)
  intro a b hab hcontra
  rcases hcontra with ⟨hA, hB⟩
  rw [decide_eq_true_eq] at hA hB
  obtain ⟨ha1, ha2, ha3⟩ := hA
  obtain ⟨hb1, hb2, hb3⟩ := hB
  simp [taskConflict, sqlUniqueEq, ha1, ha2, ha3, hb1, hb2, hb3] at hab

/-- Witness for the amended C6 at a concrete admitted table. -/
theorem c6_processed_rows_capped_witness :
    unique_unprocessed_task
        [(⟨1, TaskKind.share, 9, 10, some true, some 10⟩ : TaskRow),
         ⟨2, TaskKind.share, 9, 50, some false, none⟩] = true ∧
    ([(⟨1, TaskKind.share, 9, 10, some true, some 10⟩ : TaskRow),
      ⟨2, TaskKind.share, 9, 50, some false, none⟩].filter (fun t =>
        decide (t.taskType = TaskKind.share ∧ t.targetId = 9 ∧
          t.isProcessed = some true))).length ≤ 1 :=
  ⟨by decide, c6_processed_rows_capped _ TaskKind.share 9 (by decide)⟩

/-- C9: `unique_folder_name_per_parent` does not reject duplicate
root-level folders: with `parent_id` NULL the constraint columns are never
all non-NULL-equal, so two non-deleted root folders of user 7 with the
identical name are both admitted; with the same non-NULL parent the same
two names collide. -/
theorem c9_duplicate_root_folder_names_admitted :
    unique_folder_name_per_parent
        [(⟨1, 7, none, "docs", some false⟩ : FolderRow),
         ⟨2, 7, none, "docs", some false⟩] = true ∧
    folderConflict (⟨1, 7, some 3, "docs", some false⟩ : FolderRow)
        ⟨2, 7, some 3, "docs", some false⟩ = true := by decide

/-- C8: for a user owning no non-deleted files, the SQL `SUM(size)` is
NULL, `calculate_user_storage_usage` COALESCEs it to 0, and the trigger
recompute persists `storage_used = 0` for that user. -/
theorem c8_recompute_persists_zero (db : DB) (uid : Nat) (u : UserRow)
    (hu : db.users.find? (fun x => decide (x.id = uid)) = some u)
    (h : liveUserFiles db uid = []) :
    sqlSumSizes (liveUserFiles db uid) = none ∧
    calculate_user_storage_usage db uid = 0 ∧
    (update_user_storage_usage db uid).users.find? (fun x => decide (x.id = uid)) =
      some { u with storageUsed := 0 } := by
  have h0 : calculate_user_storage_usage db uid = 0 := by
    rw [calculate_user_storage_usage, h]
    rfl
  refine ⟨by rw [h]; rfl, h0, ?_⟩
  have hid : u.id = uid := by
    have := List.find?_some hu
    simpa using this
  rw [update_user_storage_usage, h0, setStorageUsed]
  have hg : ∀ x : UserRow,
      UserRow.id (if x.id = uid then { x with storageUsed := 0 } else x) = UserRow.id x := by
    intro x
    by_cases hx : x.id = uid <;> simp [hx]
  show (db.users.map fun x => if x.id = uid then { x with storageUsed := 0 } else x).find?
      (fun x => decide (x.id = uid)) = some { u with storageUsed := 0 }
  rw [find?_map_of_key UserRow.id _ hg uid, hu]
  simp [hid]

/-- Witness for C8. -/
theorem c8_recompute_persists_zero_witness :
    sqlSumSizes (liveUserFiles c8db 3) = none ∧
    calculate_user_storage_usage c8db 3 = 0 ∧
    (update_user_storage_usage c8db 3).users.find? (fun x => decide (x.id = 3)) =
      some ⟨3, 0⟩ :=
  c8_recompute_persists_zero c8db 3 ⟨3, 42⟩ (by decide) (by decide)

/-- C1 (code bug): an UPDATE of `files` that changes `user_id` from user 1
to user 2 fires `update_user_storage_usage` with NEW.user_id only, so the
settled state violates the claimed invariant — user 1 keeps
`storage_used = 100` while the exact sum of user 1's non-deleted files is
0.  Before the update the invariant holds. -/
theorem c1_ownership_change_leaves_old_owner_stale :
    storageInvariant c1db = true ∧
    storageInvariant (updateFile c1db ⟨10, 2, 100, false, none⟩) = false := by decide

/-- C5 (code bug): after an UPDATE changing a file's owner, the trigger
recomputes only the new owner — user 2's aggregate equals the exact sum,
while user 1's persisted aggregate differs from the exact sum of user 1's
non-deleted files (it stays at the stale 250 instead of 0). -/
theorem c5_recompute_invoked_only_for_new_owner :
    ((c5post.users.find? (fun x => decide (x.id = 2))).map UserRow.storageUsed =
      some (calculate_user_storage_usage c5post 2)) ∧
    ¬ ((c5post.users.find? (fun x => decide (x.id = 1))).map UserRow.storageUsed =
      some (calculate_user_storage_usage c5post 1)) := by decide

theorem markProcessed_files (now : Nat) (db : DB) (tid : Nat) :
    (markProcessed now db tid).files = db.files := rfl

theorem markProcessed_users (now : Nat) (db : DB) (tid : Nat) :
    (markProcessed now db tid).users = db.users := rfl

theorem updateFile_files (db : DB) (newF : FileRow) :
    (updateFile db newF).files = db.files.map (fun x => if x.id = newF.id then newF else x) := rfl

theorem updateFile_tasks (db : DB) (newF : FileRow) :
    (updateFile db newF).tasks = db.tasks := rfl

theorem update_user_storage_usage_files (db : DB) (uid : Nat) :
    (update_user_storage_usage db uid).files = db.files := rfl

theorem update_user_storage_usage_tasks (db : DB) (uid : Nat) :
    (update_user_storage_usage db uid).tasks = db.tasks := rfl

/-- A recompute for user `uid` does not move any other user's row. -/
theorem update_user_storage_usage_find_other (db : DB) (uid k : Nat) (hne : uid ≠ k) :
    (update_user_storage_usage db uid).users.find? (fun x => decide (x.id = k)) =
      db.users.find? (fun x => decide (x.id = k)) := by
  show ((db.users.map _).find? _) = _
  rw [find?_map_of_key UserRow.id
    (fun u => if u.id = uid then { u with storageUsed := calculate_user_storage_usage db uid } else u)
    (by intro x; by_cases hx : x.id = uid <;> simp [hx]) k]
  cases hfind : db.users.find? (fun x => decide (x.id = k)) with
  | none => rfl
  | some u =>
      have hk : u.id = k := by simpa using List.find?_some hfind
      have : ¬(u.id = uid) := by rw [hk]; exact fun h => hne h.symm
      simp [this]

/-- A recompute for user `uid` sets exactly that user's aggregate to the
recomputed sum. -/
theorem update_user_storage_usage_find_self (db : DB) (uid : Nat) (u : UserRow)
    (hu : db.users.find? (fun x => decide (x.id = uid)) = some u) :
    (update_user_storage_usage db uid).users.find? (fun x => decide (x.id = uid)) =
      some { u with storageUsed := calculate_user_storage_usage db uid } := by
  show ((db.users.map _).find? _) = _
  rw [find?_map_of_key UserRow.id
    (fun x => if x.id = uid then { x with storageUsed := calculate_user_storage_usage db uid } else x)
    (by intro x; by_cases hx : x.id = uid <;> simp [hx]) uid, hu]
  have hk : u.id = uid := by simpa using List.find?_some hu
  simp [hk]

/-- The claim write moves no other task's row. -/
theorem markProcessed_find_other (now : Nat) (db : DB) (tid k : Nat) (hne : tid ≠ k) :
    (markProcessed now db tid).tasks.find? (fun x => decide (x.id = k)) =
      db.tasks.find? (fun x => decide (x.id = k)) := by
  show ((db.tasks.map _).find? _) = _
  rw [find?_map_of_key TaskRow.id
    (fun t => if t.id = tid then { t with isProcessed := some true, processedAt := some now } else t)
    (by intro x; by_cases hx : x.id = tid <;> simp [hx]) k]
  cases hfind : db.tasks.find? (fun x => decide (x.id = k)) with
  | none => rfl
  | some t =>
      have hk : t.id = k := by simpa using List.find?_some hfind
      have : ¬(t.id = tid) := by rw [hk]; exact fun h => hne h.symm
      simp [this]

/-- The claim write marks exactly the claimed task's row. -/
theorem markProcessed_find_self (now : Nat) (db : DB) (tid : Nat) (T : TaskRow)
    (hT : db.tasks.find? (fun x => decide (x.id = tid)) = some T) :
    (markProcessed now db tid).tasks.find? (fun x => decide (x.id = tid)) =
      some { T with isProcessed := some true, processedAt := some now } := by
  show ((db.tasks.map _).find? _) = _
  rw [find?_map_of_key TaskRow.id
    (fun t => if t.id = tid then { t with isProcessed := some true, processedAt := some now } else t)
    (by intro x; by_cases hx : x.id = tid <;> simp [hx]) tid, hT]
  have hk : T.id = tid := by simpa using List.find?_some hT
  simp [hk]

/-- An entity-store UPDATE of the `files` row `newF.id` commutes with a
find? by any id. -/
theorem files_map_update_find (l : List FileRow) (newF : FileRow) (k : Nat) :
    (l.map (fun x => if x.id = newF.id then newF else x)).find? (fun x => decide (x.id = k)) =
      (l.find? (fun x => decide (x.id = k))).map (fun x => if x.id = newF.id then newF else x) :=
  find?_map_of_key FileRow.id _
    (by intro x; by_cases hx : x.id = newF.id <;> simp [hx]) k l

/-- A task that is processed, NULL-flagged or not yet due is skipped. -/
theorem claimAndProcess_skip (now : Nat) (db : DB) (t : TaskRow)
    (h : ¬(t.isProcessed = some false ∧ t.expiresAt ≤ now)) :
    claimAndProcess now db t = db := by
  unfold claimAndProcess
  rw [if_neg h]

/-- A due unprocessed file task is claimed and its file expired. -/
theorem claimAndProcess_file (now : Nat) (db : DB) (t : TaskRow)
    (h1 : t.isProcessed = some false) (h2 : t.expiresAt ≤ now)
    (hk : t.taskType = TaskKind.file) :
    claimAndProcess now db t = applyFileExpiry (markProcessed now db t.id) t.targetId := by
  unfold claimAndProcess
  rw [if_pos ⟨h1, h2⟩, hk]

/-- A due unprocessed share task is claimed and its share deactivated. -/
theorem claimAndProcess_share (now : Nat) (db : DB) (t : TaskRow)
    (h1 : t.isProcessed = some false) (h2 : t.expiresAt ≤ now)
    (hk : t.taskType = TaskKind.share) :
    claimAndProcess now db t = applyShareExpiry (markProcessed now db t.id) t.targetId := by
  unfold claimAndProcess
  rw [if_pos ⟨h1, h2⟩, hk]

theorem applyFileExpiry_tasks (db : DB) (tgt : Nat) :
    (applyFileExpiry db tgt).tasks = db.tasks := by
  unfold applyFileExpiry
  cases db.files.find? (fun x => decide (x.id = tgt)) <;> rfl

/-- How one claim step rewrites the task table. -/
theorem claimAndProcess_tasks (now : Nat) (db : DB) (t : TaskRow) :
    (claimAndProcess now db t).tasks =
      if t.isProcessed = some false ∧ t.expiresAt ≤ now then
        db.tasks.map (fun x =>
          if x.id = t.id then { x with isProcessed := some true, processedAt := some now } else x)
      else db.tasks := by
  by_cases hc : t.isProcessed = some false ∧ t.expiresAt ≤ now
  · rw [if_pos hc]
    cases hk : t.taskType
    · rw [claimAndProcess_file now db t hc.1 hc.2 hk, applyFileExpiry_tasks]
      rfl
    · rw [claimAndProcess_share now db t hc.1 hc.2 hk]
      rfl
  · rw [if_neg hc, claimAndProcess_skip now db t hc]

/-- After folding claim steps over a list that accounts for every due
unprocessed task of the state, no due unprocessed task remains. -/
theorem sweep_clears_aux (now : Nat) :
    ∀ (l : List TaskRow) (db : DB),
      (∀ x ∈ db.tasks, x.isProcessed = some false → x.expiresAt ≤ now →
        ∃ t0 ∈ l, t0.id = x.id ∧ t0.isProcessed = some false ∧ t0.expiresAt ≤ now) →
      ∀ x ∈ (l.foldl (claimAndProcess now) db).tasks,
        x.isProcessed = some false → now < x.expiresAt := by
  intro l
  induction l with
  | nil =>
      intro db h x hx hxp
      by_contra hlt
      push_neg at hlt
      obtain ⟨t0, ht0, _⟩ := h x hx hxp hlt
      exact (List.not_mem_nil t0) ht0
  | cons t0 rest ih =>
      intro db h
      rw [List.foldl_cons]
      apply ih
      intro x hx hxp hxd
      rw [claimAndProcess_tasks] at hx
      by_cases hc : t0.isProcessed = some false ∧ t0.expiresAt ≤ now
      · rw [if_pos hc] at hx
        obtain ⟨x0, hx0, hgx⟩ := List.mem_map.mp hx
        by_cases hid : x0.id = t0.id
        · rw [if_pos hid] at hgx
          rw [← hgx] at hxp
          simp at hxp
        · rw [if_neg hid] at hgx
          subst hgx
          obtain ⟨t1, ht1, hid1, hp1, hd1⟩ := h x0 hx0 hxp hxd
          refine ⟨t1, ?_, hid1, hp1, hd1⟩
          rcases List.mem_cons.mp ht1 with h' | h'
          · exact absurd (h' ▸ hid1).symm hid
          · exact h'
      · rw [if_neg hc] at hx
        obtain ⟨t1, ht1, hid1, hp1, hd1⟩ := h x hx hxp hxd
        refine ⟨t1, ?_, hid1, hp1, hd1⟩
        rcases List.mem_cons.mp ht1 with h' | h'
        · exact absurd ⟨h' ▸ hp1, h' ▸ hd1⟩ hc
        · exact h'

/-- After one sweep cycle no due unprocessed task remains. -/
theorem sweepCycle_clears (now : Nat) (db : DB) :
    ∀ x ∈ (sweepCycle now db).tasks, x.isProcessed = some false → now < x.expiresAt := by
  apply sweep_clears_aux
  intro x hx hp hd
  exact ⟨x, hx, rfl, hp, hd⟩

/-- Folding claim steps over tasks that are all skippable changes nothing. -/
theorem foldl_claim_skip (now : Nat) :
    ∀ (l : List TaskRow) (db : DB),
      (∀ t0 ∈ l, t0.isProcessed = some false → now < t0.expiresAt) →
      l.foldl (claimAndProcess now) db = db := by
  intro l
  induction l with
  | nil => intro db _; rfl
  | cons t0 rest ih =>
      intro db h
      have hskip : claimAndProcess now db t0 = db := by
        apply claimAndProcess_skip
        intro hcd
        have := h t0 (List.mem_cons_self t0 rest) hcd.1
        omega
      rw [List.foldl_cons, hskip]
      exact ih db (fun t1 ht1 hp => h t1 (List.mem_cons_of_mem _ ht1) hp)

/-- Re-running a sweep cycle on a swept state is a no-op. -/
theorem sweepCycle_idem (now : Nat) (db : DB) :
    sweepCycle now (sweepCycle now db) = sweepCycle now db :=
  foldl_claim_skip now (sweepCycle now db).tasks (sweepCycle now db) (sweepCycle_clears now db)

/-- Foldl preserves a predicate preserved by every step. -/
theorem foldl_preserve {α β : Type} (g : β → α → β) (P : β → Prop) :
    ∀ (l : List α) (b : β), (∀ b' a, a ∈ l → P b' → P (g b' a)) → P b → P (l.foldl g b) := by
  intro l
  induction l with
  | nil => intro b _ hb; exact hb
  | cons a rest ih =>
      intro b h hb
      rw [List.foldl_cons]
      exact ih (g b a)
        (fun b' x hx => h b' x (List.mem_cons_of_mem _ hx))
        (h b a (List.mem_cons_self a rest) hb)

/-- A map that fixes every row visible to a filter commutes out of the
filter. -/
theorem filter_map_stable {α : Type} (p : α → Bool) (g : α → α) :
    ∀ (l : List α), (∀ x ∈ l, g x = x ∨ (p x = false ∧ p (g x) = false)) →
      (l.map g).filter p = l.filter p := by
  intro l
  induction l with
  | nil => intro _; rfl
  | cons x xs ih =>
      intro h
      have hxs := ih (fun y hy => h y (List.mem_cons_of_mem _ hy))
      rcases h x (List.mem_cons_self x xs) with h1 | ⟨h2, h3⟩
      · simp only [List.map_cons, List.filter_cons, h1, hxs]
      · simp only [List.map_cons, List.filter_cons, h2, h3, Bool.false_eq_true, if_false, hxs]

/-- Soft-deleting the rows with one id inside a map behaves, towards a
filter the new row fails, like erasing those rows from the filtered list. -/
theorem filter_map_delete (p : FileRow → Bool) (fid : Nat) (newF : FileRow)
    (hp : p newF = false) :
    ∀ (l : List FileRow),
      (l.map (fun x => if x.id = fid then newF else x)).filter p =
        (l.filter p).filter (fun x => !decide (x.id = fid)) := by
  intro l
  induction l with
  | nil => rfl
  | cons x xs ih =>
      by_cases hx : x.id = fid
      · by_cases hpx : p x = true
        · simp [List.filter_cons, hx, hp, hpx, ih]
        · simp [List.filter_cons, hx, hp, eq_false_of_ne_true hpx, ih]
      · by_cases hpx : p x = true
        · simp [List.filter_cons, hx, hpx, ih]
        · simp [List.filter_cons, hx, eq_false_of_ne_true hpx, ih]

/-- Erasing the unique row with a member's id from a list removes exactly
that member's size from the total. -/
theorem sum_filter_ne_id (F : FileRow) :
    ∀ (l : List FileRow), (l.map FileRow.id).Nodup → F ∈ l →
      ((l.filter (fun x => !decide (x.id = F.id))).map FileRow.size).sum + F.size =
        (l.map FileRow.size).sum := by
  intro l
  induction l with
  | nil => intro _ h; exact absurd h (List.not_mem_nil F)
  | cons x xs ih =>
      intro hN hmem
      rw [List.map_cons, List.nodup_cons] at hN
      rcases List.mem_cons.mp hmem with rfl | hmem'
      · have hxs : xs.filter (fun y => !decide (y.id = F.id)) = xs := by
          apply List.filter_eq_self.mpr
          intro y hy
          have : y.id ≠ F.id := by
            intro hcontra
            exact hN.1 (hcontra ▸ List.mem_map_of_mem FileRow.id hy)
          simp [this]
        simp only [List.filter_cons, List.map_cons]
        simp [hxs]
        omega
      · have hxF : ¬(x.id = F.id) := by
          intro hcontra
          exact hN.1 (hcontra ▸ List.mem_map_of_mem FileRow.id hmem')
        have hrec := ih hN.2 hmem'
        simp only [List.filter_cons, List.map_cons, List.sum_cons]
        simp [hxF]
        omega

/-- Matching (id, user) projections give matching id projections. -/
theorem files_id_map_of_pair (s0 s1 : List FileRow)
    (h : s0.map (fun x => (x.id, x.userId)) = s1.map (fun x => (x.id, x.userId))) :
    s0.map FileRow.id = s1.map FileRow.id := by
  have := congrArg (List.map Prod.fst) h
  simpa [List.map_map, Function.comp] using this

/-- An entity-store file UPDATE leaves every user row other than the
recomputed owner's untouched. -/
theorem updateFile_users_find_other (db : DB) (newF : FileRow) (k : Nat)
    (hne : newF.userId ≠ k) :
    (updateFile db newF).users.find? (fun x => decide (x.id = k)) =
      db.users.find? (fun x => decide (x.id = k)) := by
  unfold updateFile
  exact update_user_storage_usage_find_other _ newF.userId k hne

/-- An entity-store file UPDATE sets the new owner's aggregate to the sum
recomputed over the updated file table. -/
theorem updateFile_users_find_self (db : DB) (newF : FileRow) (u : UserRow)
    (hu : db.users.find? (fun x => decide (x.id = newF.userId)) = some u) :
    (updateFile db newF).users.find? (fun x => decide (x.id = newF.userId)) =
      some { u with storageUsed :=
        (calculate_user_storage_usage
          { db with files := db.files.map (fun x => if x.id = newF.id then newF else x) }
          newF.userId) } := by
  unfold updateFile
  exact update_user_storage_usage_find_self _ newF.userId u hu

/-- An entity-store file UPDATE acts on a find? by id through the row map. -/
theorem updateFile_files_find (db : DB) (newF : FileRow) (k : Nat) :
    (updateFile db newF).files.find? (fun x => decide (x.id = k)) =
      (db.files.find? (fun x => decide (x.id = k))).map
        (fun x => if x.id = newF.id then newF else x) := by
  show ((db.files.map fun x => if x.id = newF.id then newF else x).find? _) = _
  exact files_map_update_find db.files newF k

/-- An entity-store file UPDATE that keeps the row's owner keeps the
(id, owner) projection of the file table. -/
theorem updateFile_pair_map (db : DB) (newF : FileRow)
    (hpair : ∀ x ∈ db.files, x.id = newF.id → x.userId = newF.userId) :
    (updateFile db newF).files.map (fun x => (x.id, x.userId)) =
      db.files.map (fun x => (x.id, x.userId)) := by
  show ((db.files.map fun x => if x.id = newF.id then newF else x).map
      fun x => (x.id, x.userId)) = _
  rw [List.map_map]
  apply List.map_congr_left
  intro x hx
  by_cases hxid : x.id = newF.id
  · have h2 := hpair x hx hxid
    simp [Function.comp, hxid, h2]
  · simp [Function.comp, hxid]

/-- An entity-store file UPDATE touching only rows outside an owner's live
set leaves that live set unchanged. -/
theorem updateFile_live_other (db : DB) (newF : FileRow) (owner : Nat)
    (hmem : ∀ x ∈ db.files, x.id = newF.id → (x.userId ≠ owner ∧ newF.userId ≠ owner)) :
    liveUserFiles (updateFile db newF) owner = liveUserFiles db owner := by
  show (db.files.map fun x => if x.id = newF.id then newF else x).filter
      (fun f => decide (f.userId = owner) && !f.isDeleted) = liveUserFiles db owner
  apply filter_map_stable
  intro x hx
  by_cases hxid : x.id = newF.id
  · right
    obtain ⟨h1, h2⟩ := hmem x hx hxid
    refine ⟨?_, ?_⟩
    · simp [h1]
    · rw [if_pos hxid]
      simp [h2]
  · left
    rw [if_neg hxid]

/-- A soft-delete UPDATE erases exactly the updated id from every owner's
live set. -/
theorem updateFile_live_delete (db : DB) (newF : FileRow) (owner : Nat)
    (hdel : newF.isDeleted = true) :
    liveUserFiles (updateFile db newF) owner =
      (liveUserFiles db owner).filter (fun x => !decide (x.id = newF.id)) := by
  show (db.files.map fun x => if x.id = newF.id then newF else x).filter
      (fun f => decide (f.userId = owner) && !f.isDeleted) = _
  rw [filter_map_delete _ newF.id newF (by simp [hdel])]
  rfl

/-- One claim step on a task other than the watched one, whose due-file
effect (if any) touches no file of the watched owner, preserves the sweep
bookkeeping. -/
theorem claimAndProcess_preserves_pack
    (db0 : DB) (now owner fid tid : Nat) (U : UserRow) (F : FileRow) (T : TaskRow)
    (L : List FileRow)
    (hN : (db0.files.map FileRow.id).Nodup)
    (hfowner : ∃ f0 ∈ db0.files, f0.id = fid ∧ f0.userId = owner)
    (t0 : TaskRow) (hne : t0.id ≠ tid)
    (hother : t0.taskType = TaskKind.file → t0.isProcessed = some false →
      t0.expiresAt ≤ now → ∀ f' ∈ db0.files, f'.id = t0.targetId → f'.userId ≠ owner)
    (s : DB) (hs : sweepPack db0 owner fid tid U F T L s) :
    sweepPack db0 owner fid tid U F T L (claimAndProcess now s t0) := by
  obtain ⟨hsU, hsF, hsT, hsPr, hsL⟩ := hs
  by_cases hc : t0.isProcessed = some false ∧ t0.expiresAt ≤ now
  case neg =>
    rw [claimAndProcess_skip now s t0 hc]
    exact ⟨hsU, hsF, hsT, hsPr, hsL⟩
  case pos =>
  obtain ⟨hc1, hc2⟩ := hc
  have hT1 : (markProcessed now s t0.id).tasks.find? (fun x => decide (x.id = tid)) = some T := by
    rw [markProcessed_find_other now s t0.id tid hne]
    exact hsT
  cases hk : t0.taskType with
  | share =>
      rw [claimAndProcess_share now s t0 hc1 hc2 hk]
      exact ⟨hsU, hsF, hT1, hsPr, hsL⟩
  | file =>
      rw [claimAndProcess_file now s t0 hc1 hc2 hk]
      cases hfind : (markProcessed now s t0.id).files.find?
          (fun x => decide (x.id = t0.targetId)) with
      | none =>
          unfold applyFileExpiry
          rw [hfind]
          exact ⟨hsU, hsF, hT1, hsPr, hsL⟩
      | some fr =>
          unfold applyFileExpiry
          rw [hfind]
          show sweepPack db0 owner fid tid U F T L
            (updateFile (markProcessed now s t0.id) { fr with isDeleted := true })
          have hfr_id : fr.id = t0.targetId := by simpa using List.find?_some hfind
          have hfr_mem : fr ∈ s.files := List.mem_of_find?_eq_some hfind
          have hpair : (fr.id, fr.userId) ∈ db0.files.map (fun x => (x.id, x.userId)) := by
            rw [← hsPr]
            exact List.mem_map_of_mem _ hfr_mem
          obtain ⟨x0, hx0mem, hx0eq⟩ := List.mem_map.mp hpair
          have hx0id : x0.id = fr.id := by
            have h1 := congrArg Prod.fst hx0eq
            simpa using h1
          have hx0uid : x0.userId = fr.userId := by
            have h1 := congrArg Prod.snd hx0eq
            simpa using h1
          have hfr_owner : fr.userId ≠ owner := by
            have h0 := hother hk hc1 hc2 x0 hx0mem (hx0id.trans hfr_id)
            rwa [hx0uid] at h0
          have hFid : F.id = fid := by simpa using List.find?_some hsF
          have htgt_fid : t0.targetId ≠ fid := by
            intro hcontra
            obtain ⟨f0, hf0mem, hf0id, hf0uid⟩ := hfowner
            exact hother hk hc1 hc2 f0 hf0mem (by rw [hf0id, ← hcontra]) hf0uid
          have hsN : (s.files.map FileRow.id).Nodup := by
            rw [files_id_map_of_pair s.files db0.files hsPr]
            exact hN
          refine ⟨?_, ?_, ?_, ?_, ?_⟩
          · rw [updateFile_users_find_other _ ({ fr with isDeleted := true }) owner hfr_owner,
              markProcessed_users]
            exact hsU
          · rw [updateFile_files_find, markProcessed_files, hsF]
            have hno : ¬(F.id = ({ fr with isDeleted := true } : FileRow).id) := by
              show ¬(F.id = fr.id)
              rw [hFid, hfr_id]
              exact fun h => htgt_fid h.symm
            simp [hno]
          · rw [updateFile_tasks]
            exact hT1
          · have hpl : ∀ x ∈ (markProcessed now s t0.id).files,
                x.id = ({ fr with isDeleted := true } : FileRow).id →
                x.userId = ({ fr with isDeleted := true } : FileRow).userId := by
              intro x hx hxid
              have hxfr : x = fr := eq_of_key_eq_of_nodup FileRow.id hsN hx hfr_mem hxid
              rw [hxfr]
            rw [updateFile_pair_map _ _ hpl, markProcessed_files]
            exact hsPr
          · have hlm : ∀ x ∈ (markProcessed now s t0.id).files,
                x.id = ({ fr with isDeleted := true } : FileRow).id →
                (x.userId ≠ owner ∧ ({ fr with isDeleted := true } : FileRow).userId ≠ owner) := by
              intro x hx hxid
              have hxfr : x = fr := eq_of_key_eq_of_nodup FileRow.id hsN hx hfr_mem hxid
              exact ⟨by rw [hxfr]; exact hfr_owner, hfr_owner⟩
            rw [updateFile_live_other _ _ owner hlm]
            exact hsL

/-- An entity-store file UPDATE persists, for the new owner, the size sum
over the owner's live files of the resulting state. -/
theorem updateFile_users_find_self_live (db : DB) (newF : FileRow) (u : UserRow)
    (hu : db.users.find? (fun x => decide (x.id = newF.userId)) = some u) :
    (updateFile db newF).users.find? (fun x => decide (x.id = newF.userId)) =
      some { u with storageUsed :=
        (((liveUserFiles (updateFile db newF) newF.userId).map FileRow.size).sum) } := by
  rw [updateFile_users_find_self db newF u hu, calculate_user_storage_usage, sqlSumSizes_getD]
  rfl

/-- The claim step on the watched due file task soft-deletes the file,
marks the task processed and recomputes the owner's aggregate, which drops
by exactly the file's size. -/
theorem claimAndProcess_main_pack
    (db0 : DB) (now owner fid tid : Nat) (U : UserRow) (F : FileRow) (T : TaskRow)
    (L : List FileRow)
    (hN : (db0.files.map FileRow.id).Nodup)
    (t : TaskRow) (htid : t.id = tid) (htk : t.taskType = TaskKind.file)
    (htgt : t.targetId = fid)
    (hp : t.isProcessed = some false) (hd : t.expiresAt ≤ now)
    (hFuid : F.userId = owner) (hFdel : F.isDeleted = false)
    (s : DB) (hs : sweepPack db0 owner fid tid U F T L s) :
    sweepPack db0 owner fid tid
      { U with storageUsed := (L.map FileRow.size).sum - F.size }
      { F with isDeleted := true }
      { T with isProcessed := some true, processedAt := some now }
      (L.filter (fun x => !decide (x.id = fid)))
      (claimAndProcess now s t) := by
  obtain ⟨hsU, hsF, hsT, hsPr, hsL⟩ := hs
  have hFid : F.id = fid := by simpa using List.find?_some hsF
  have hUid : U.id = owner := by simpa using List.find?_some hsU
  have hsN : (s.files.map FileRow.id).Nodup := by
    rw [files_id_map_of_pair s.files db0.files hsPr]
    exact hN
  have hFmem : F ∈ s.files := List.mem_of_find?_eq_some hsF
  have hLN : (L.map FileRow.id).Nodup := by
    rw [← hsL]
    exact List.Nodup.sublist (List.Sublist.map FileRow.id (List.filter_sublist s.files)) hsN
  have hFL : F ∈ L := by
    rw [← hsL]
    exact List.mem_filter.mpr ⟨hFmem, by simp [hFuid, hFdel]⟩
  have hsum : ((L.filter (fun x => !decide (x.id = fid))).map FileRow.size).sum + F.size =
      (L.map FileRow.size).sum := by
    have h1 := sum_filter_ne_id F L hLN hFL
    rwa [hFid] at h1
  rw [claimAndProcess_file now s t hp hd htk, htgt]
  have hT1 : (markProcessed now s t.id).tasks.find? (fun x => decide (x.id = tid)) =
      some { T with isProcessed := some true, processedAt := some now } := by
    rw [htid]
    exact markProcessed_find_self now s tid T hsT
  have hfindF : (markProcessed now s t.id).files.find? (fun x => decide (x.id = fid)) =
      some F := by
    rw [markProcessed_files]
    exact hsF
  unfold applyFileExpiry
  rw [hfindF]
  show sweepPack db0 owner fid tid
    { U with storageUsed := (L.map FileRow.size).sum - F.size }
    { F with isDeleted := true }
    { T with isProcessed := some true, processedAt := some now }
    (L.filter (fun x => !decide (x.id = fid)))
    (updateFile (markProcessed now s t.id) { F with isDeleted := true })
  have hlive2 : liveUserFiles
      (updateFile (markProcessed now s t.id) { F with isDeleted := true }) owner =
      L.filter (fun x => !decide (x.id = fid)) := by
    rw [updateFile_live_delete _ _ owner rfl]
    have hredid : ({ F with isDeleted := true } : FileRow).id = fid := hFid
    rw [hredid]
    show (liveUserFiles s owner).filter (fun x => !decide (x.id = fid)) =
      L.filter (fun x => !decide (x.id = fid))
    rw [hsL]
  refine ⟨?_, ?_, ?_, ?_, ?_⟩
  · have hu1 : (markProcessed now s t.id).users.find?
        (fun x => decide (x.id = ({ F with isDeleted := true } : FileRow).userId)) = some U := by
      show s.users.find? (fun x => decide (x.id = F.userId)) = some U
      rw [hFuid]
      exact hsU
    have hself := updateFile_users_find_self_live (markProcessed now s t.id)
      ({ F with isDeleted := true }) U hu1
    have hself2 : (updateFile (markProcessed now s t.id)
        { F with isDeleted := true }).users.find? (fun x => decide (x.id = F.userId)) =
        some { U with storageUsed :=
          (((liveUserFiles (updateFile (markProcessed now s t.id)
            { F with isDeleted := true }) F.userId).map FileRow.size).sum) } := hself
    rw [← hFuid]
    rw [hself2]
    rw [← hFuid] at hlive2
    rw [hlive2]
    have hval : ((L.filter (fun x => !decide (x.id = fid))).map FileRow.size).sum =
        (L.map FileRow.size).sum - F.size := by omega
    rw [hval]
  · rw [updateFile_files_find, markProcessed_files, hsF]
    simp
  · rw [updateFile_tasks]
    exact hT1
  · have hpl : ∀ x ∈ (markProcessed now s t.id).files,
        x.id = ({ F with isDeleted := true } : FileRow).id →
        x.userId = ({ F with isDeleted := true } : FileRow).userId := by
      intro x hx hxid
      have hxF : x = F := eq_of_key_eq_of_nodup FileRow.id hsN hx hFmem hxid
      rw [hxF]
    rw [updateFile_pair_map _ _ hpl, markProcessed_files]
    exact hsPr
  · exact hlive2

/-- C3: for a file with `expires_at` set whose (unique) unprocessed
expiration task is due at `now`, one sweep cycle soft-deletes the file,
marks the task processed (stamping `processed_at`), and the owner's
persisted `storage_used` — exact before the sweep — drops by exactly the
file's size; re-running the sweep afterwards changes nothing.  The
hypotheses state primary-key uniqueness, the watched rows, and that no
other due task expires a file of the same owner in this cycle. -/
theorem c3_sweep_expires_file (db : DB) (now : Nat) (f : FileRow) (t : TaskRow) (u : UserRow)
    (e : Nat)
    (hNf : (db.files.map FileRow.id).Nodup)
    (hNt : (db.tasks.map TaskRow.id).Nodup)
    (hu : db.users.find? (fun x => decide (x.id = f.userId)) = some u)
    (hf : db.files.find? (fun x => decide (x.id = f.id)) = some f)
    (ht : db.tasks.find? (fun x => decide (x.id = t.id)) = some t)
    (hfe : f.expiresAt = some e) (hee : e ≤ now) (hfdel : f.isDeleted = false)
    (htk : t.taskType = TaskKind.file) (htgt : t.targetId = f.id)
    (htp : t.isProcessed = some false) (hte : t.expiresAt = e)
    (hexact : u.storageUsed = calculate_user_storage_usage db f.userId)
    (hother : ∀ t2 ∈ db.tasks, t2.id ≠ t.id → t2.taskType = TaskKind.file →
      t2.isProcessed = some false → t2.expiresAt ≤ now →
      ∀ f2 ∈ db.files, f2.id = t2.targetId → f2.userId ≠ f.userId) :
    (sweepCycle now db).files.find? (fun x => decide (x.id = f.id)) =
      some { f with isDeleted := true } ∧
    (sweepCycle now db).tasks.find? (fun x => decide (x.id = t.id)) =
      some { t with isProcessed := some true, processedAt := some now } ∧
    (sweepCycle now db).users.find? (fun x => decide (x.id = f.userId)) =
      some { u with storageUsed := u.storageUsed - f.size } ∧
    sweepCycle now (sweepCycle now db) = sweepCycle now db := by
  have htmem : t ∈ db.tasks := List.mem_of_find?_eq_some ht
  obtain ⟨l1, l2, hsplit⟩ := List.append_of_mem htmem
  have hNt' := hNt
  rw [hsplit, List.map_append, List.map_cons, List.nodup_append] at hNt'
  obtain ⟨hN1, hN2, hdisj⟩ := hNt'
  rw [List.nodup_cons] at hN2
  have hid1 : ∀ t0 ∈ l1, t0.id ≠ t.id := by
    intro t0 ht0 hcontra
    exact hdisj (List.mem_map_of_mem TaskRow.id ht0)
      (hcontra ▸ List.mem_cons_self t.id (l2.map TaskRow.id))
  have hid2 : ∀ t0 ∈ l2, t0.id ≠ t.id := by
    intro t0 ht0 hcontra
    exact hN2.1 (hcontra ▸ List.mem_map_of_mem TaskRow.id ht0)
  have hfowner : ∃ f0 ∈ db.files, f0.id = f.id ∧ f0.userId = f.userId :=
    ⟨f, List.mem_of_find?_eq_some hf, rfl, rfl⟩
  have hpack0 : sweepPack db f.userId f.id t.id u f t (liveUserFiles db f.userId) db :=
    ⟨hu, hf, ht, rfl, rfl⟩
  have hfold : sweepCycle now db =
      l2.foldl (claimAndProcess now)
        (claimAndProcess now (l1.foldl (claimAndProcess now) db) t) := by
    unfold sweepCycle
    rw [hsplit, List.foldl_append, List.foldl_cons]
  have hpack1 : sweepPack db f.userId f.id t.id u f t (liveUserFiles db f.userId)
      (l1.foldl (claimAndProcess now) db) := by
    refine foldl_preserve (claimAndProcess now) _ l1 db ?_ hpack0
    intro s t0 ht0mem hsp
    refine claimAndProcess_preserves_pack db now f.userId f.id t.id u f t _
      hNf hfowner t0 (hid1 t0 ht0mem) ?_ s hsp
    intro hk hp0 hd0 f2 hf2 hf2id
    refine hother t0 ?_ (hid1 t0 ht0mem) hk hp0 hd0 f2 hf2 hf2id
    rw [hsplit]
    exact List.mem_append_left _ ht0mem
  have hpack2 := claimAndProcess_main_pack db now f.userId f.id t.id u f t
    (liveUserFiles db f.userId) hNf t rfl htk htgt htp (by rw [hte]; exact hee)
    rfl hfdel _ hpack1
  have hpack3 : sweepPack db f.userId f.id t.id
      { u with storageUsed := ((liveUserFiles db f.userId).map FileRow.size).sum - f.size }
      { f with isDeleted := true }
      { t with isProcessed := some true, processedAt := some now }
      ((liveUserFiles db f.userId).filter (fun x => !decide (x.id = f.id)))
      (l2.foldl (claimAndProcess now)
        (claimAndProcess now (l1.foldl (claimAndProcess now) db) t)) := by
    refine foldl_preserve (claimAndProcess now) _ l2 _ ?_ hpack2
    intro s t0 ht0mem hsp
    refine claimAndProcess_preserves_pack db now f.userId f.id t.id _ _ _ _
      hNf hfowner t0 (hid2 t0 ht0mem) ?_ s hsp
    intro hk hp0 hd0 f2 hf2 hf2id
    refine hother t0 ?_ (hid2 t0 ht0mem) hk hp0 hd0 f2 hf2 hf2id
    rw [hsplit]
    exact List.mem_append_right _ (List.mem_cons_of_mem _ ht0mem)
  obtain ⟨hU3, hF3, hT3, _, _⟩ := hpack3
  refine ⟨?_, ?_, ?_, sweepCycle_idem now db⟩
  · rw [hfold]
    exact hF3
  · rw [hfold]
    exact hT3
  · rw [hfold]
    have hv : ((liveUserFiles db f.userId).map FileRow.size).sum = u.storageUsed := by
      rw [hexact, calculate_user_storage_usage, sqlSumSizes_getD]
    rw [← hv]
    exact hU3

/-- Witness for C3 at the concrete one-file state swept at `now = 100`. -/
theorem c3_sweep_expires_file_witness :
    (sweepCycle 100 c3db).files.find? (fun x => decide (x.id = 10)) =
      some ⟨10, 1, 500, true, some 100⟩ ∧
    (sweepCycle 100 c3db).tasks.find? (fun x => decide (x.id = 20)) =
      some ⟨20, TaskKind.file, 10, 100, some true, some 100⟩ ∧
    (sweepCycle 100 c3db).users.find? (fun x => decide (x.id = 1)) = some ⟨1, 0⟩ ∧
    sweepCycle 100 (sweepCycle 100 c3db) = sweepCycle 100 c3db :=
  c3_sweep_expires_file c3db 100 ⟨10, 1, 500, false, some 100⟩
    ⟨20, TaskKind.file, 10, 100, some false, none⟩ ⟨1, 500⟩ 100
    (by decide) (by decide) (by decide) (by decide) (by decide) (by decide) (by decide)
    (by decide) (by decide) (by decide) (by decide) (by decide) (by decide) (by decide)

/-- C7: `dueTasks(asOf, limit)` returns only unprocessed tasks due as of
`asOf`, returns at most `limit` of them, and (given primary-key uniqueness
of task ids) is pairwise strictly increasing in (dueAt, id) — due time
ascending with ties broken by task identity — so the returned order is the
unique such order, hence deterministic. -/
theorem c7_dueTasks_spec (tasks : List TaskRow) (asOf lim : Nat)
    (hN : (tasks.map TaskRow.id).Nodup) :
    (∀ x ∈ dueTasks asOf lim tasks, x.isProcessed = some false ∧ x.expiresAt ≤ asOf) ∧
    (dueTasks asOf lim tasks).length ≤ lim ∧
    (dueTasks asOf lim tasks).Pairwise taskLT := by
  refine ⟨?_, ?_, ?_⟩
  · intro x hx
    have hx1 : x ∈ (tasks.filter (fun t =>
        decide (t.isProcessed = some false ∧ t.expiresAt ≤ asOf))).insertionSort taskLE :=
      List.take_subset _ _ hx
    have hx2 : x ∈ tasks.filter (fun t =>
        decide (t.isProcessed = some false ∧ t.expiresAt ≤ asOf)) :=
      (List.perm_insertionSort taskLE _).mem_iff.mp hx1
    have hx3 := List.of_mem_filter hx2
    simpa using hx3
  · show (List.take lim _).length ≤ lim
    rw [List.length_take]
    exact min_le_left _ _
  · have hsorted : List.Sorted taskLE ((tasks.filter (fun t =>
        decide (t.isProcessed = some false ∧ t.expiresAt ≤ asOf))).insertionSort taskLE) :=
      List.sorted_insertionSort taskLE _
    have hple : (dueTasks asOf lim tasks).Pairwise taskLE :=
      List.Pairwise.sublist (List.take_sublist _ _) hsorted
    have h1 : ((tasks.filter (fun t =>
        decide (t.isProcessed = some false ∧ t.expiresAt ≤ asOf))).map TaskRow.id).Nodup :=
      List.Nodup.sublist (List.Sublist.map TaskRow.id (List.filter_sublist tasks)) hN
    have h2 : (((tasks.filter (fun t =>
        decide (t.isProcessed = some false ∧ t.expiresAt ≤ asOf))).insertionSort
          taskLE).map TaskRow.id).Nodup := by
      have hperm := List.perm_insertionSort taskLE (tasks.filter (fun t =>
        decide (t.isProcessed = some false ∧ t.expiresAt ≤ asOf)))
      exact ((hperm.map TaskRow.id).nodup_iff).mpr h1
    have hidnodup : ((dueTasks asOf lim tasks).map TaskRow.id).Nodup :=
      List.Nodup.sublist (List.Sublist.map TaskRow.id (List.take_sublist _ _)) h2
    have hne : (dueTasks asOf lim tasks).Pairwise (fun a b => a.id ≠ b.id) :=
      List.pairwise_map.mp hidnodup
    refine List.Pairwise.imp ?_ (List.Pairwise.and hple hne)
    intro a b hab
    obtain ⟨hle, hne2⟩ := hab
    rcases hle with h3 | ⟨h4, h5⟩
    · exact Or.inl h3
    · exact Or.inr ⟨h4, lt_of_le_of_ne h5 hne2⟩

/-- Witness for C7 on a concrete table: due tasks 2 and 3 tie at due time
10 and come back in id order, capped at 2, excluding the undue and the
processed task. -/
theorem c7_dueTasks_spec_witness :
    (∀ x ∈ dueTasks 20 2 c7tasks, x.isProcessed = some false ∧ x.expiresAt ≤ 20) ∧
    (dueTasks 20 2 c7tasks).length ≤ 2 ∧
    (dueTasks 20 2 c7tasks).Pairwise taskLT :=
  c7_dueTasks_spec c7tasks 20 2 (by decide)

/-- A rejected download attempt on an inactive share leaves it unchanged. -/
theorem recordDownload_inactive (s : ShareRow) (h : s.isActive = false) :
    (recordDownload s).2 = s := by
  unfold recordDownload
  rw [if_pos h]

/-- A download attempt on an active share under its limit increments the
counter and deactivates the share the moment the limit is reached. -/
theorem recordDownload_under_limit (s : ShareRow) (lim : Nat)
    (hact : ¬(s.isActive = false)) (hlim : s.downloadLimit = some lim)
    (hlt : s.downloadCount < lim) :
    (recordDownload s).2 =
      { s with downloadCount := s.downloadCount + 1,
               isActive := decide (s.downloadCount + 1 < lim) } := by
  unfold recordDownload
  rw [if_neg hact, hlim]
  simp [hlt]

/-- C4: with a download limit set, `download_count` never exceeds the
limit in any state reachable through download attempts, and as soon as the
count reaches the limit the share is deactivated (`is_active = false`),
while the limit itself never changes. -/
theorem c4_download_limit_invariant (s0 s : ShareRow) (lim : Nat)
    (hlim : s0.downloadLimit = some lim)
    (hcount : s0.downloadCount ≤ lim)
    (hact : lim ≤ s0.downloadCount → s0.isActive = false)
    (hreach : shareReachable s0 s) :
    s.downloadCount ≤ lim ∧ (lim ≤ s.downloadCount → s.isActive = false) ∧
      s.downloadLimit = some lim := by
  induction hreach with
  | refl => exact ⟨hcount, hact, hlim⟩
  | tail hab hbc ih =>
      rename_i b c
      obtain ⟨ih1, ih2, ih3⟩ := ih
      rw [shareStep] at hbc
      subst hbc
      by_cases hactb : b.isActive = false
      · rw [recordDownload_inactive b hactb]
        exact ⟨ih1, ih2, ih3⟩
      · have hlt : b.downloadCount < lim := by
          rcases Nat.lt_or_ge b.downloadCount lim with h | h
          · exact h
          · exact absurd (ih2 h) hactb
        rw [recordDownload_under_limit b lim hactb ih3 hlt]
        refine ⟨?_, ?_, ?_⟩
        · show b.downloadCount + 1 ≤ lim
          omega
        · show lim ≤ b.downloadCount + 1 → decide (b.downloadCount + 1 < lim) = false
          intro h
          simp
          omega
        · exact ih3

/-- Witness for C4: one download on a fresh share with limit 2. -/
theorem c4_download_limit_invariant_witness :
    ((recordDownload c4share).2).downloadCount ≤ 2 ∧
    (2 ≤ ((recordDownload c4share).2).downloadCount →
      ((recordDownload c4share).2).isActive = false) ∧
    ((recordDownload c4share).2).downloadLimit = some 2 :=
  c4_download_limit_invariant c4share _ 2 (by decide) (by decide) (by decide)
    (Relation.ReflTransGen.single rfl)

/-- On a GET cache miss, `apiRequest` executes the request once, returns
the fresh promise, and caches it under the key. -/
theorem apiRequest_miss (now : Nat) (endpoint : String) (cfg : RequestConfig) (st : ApiState)
    (hm : cfg.method.getD "GET" = "GET")
    (hmiss : cacheLookup st.cache (getCacheKey endpoint cfg) now = none) :
    apiRequest now endpoint cfg st = (st.nextId,
      ⟨⟨getCacheKey endpoint cfg, st.nextId, now⟩ :: st.cache,
        st.nextId + 1, st.executed + 1⟩) := by
  unfold apiRequest
  rw [if_pos hm, hmiss]

/-- On a GET cache hit, `apiRequest` returns the cached in-flight promise
and performs no execution. -/
theorem apiRequest_hit (now : Nat) (endpoint : String) (cfg : RequestConfig) (st : ApiState)
    (pid : Nat) (hm : cfg.method.getD "GET" = "GET")
    (hhit : cacheLookup st.cache (getCacheKey endpoint cfg) now = some pid) :
    apiRequest now endpoint cfg st = (pid, st) := by
  unfold apiRequest
  rw [if_pos hm, hhit]

/-- C10: two GET `apiRequest` calls with equal method, endpoint and body,
the second within the 5-second window of the first (which found no cached
entry), return the same promise: the first call executes exactly one HTTP
request, and the second is answered from the cache without changing the
state — so both callers observe the identical response and the repeated
read cannot see fresher server state than the first. -/
theorem c10_get_requests_deduplicated (st : ApiState) (endpoint : String)
    (cfg1 cfg2 : RequestConfig) (t1 t2 : Nat)
    (hm1 : cfg1.method.getD "GET" = "GET") (hm2 : cfg2.method.getD "GET" = "GET")
    (hmeth : cfg1.method = cfg2.method) (hbody : cfg1.bodyJson = cfg2.bodyJson)
    (hmiss : cacheLookup st.cache (getCacheKey endpoint cfg1) t1 = none)
    (hwin : t2 < t1 + cacheWindowMs) :
    ∃ p st1, apiRequest t1 endpoint cfg1 st = (p, st1) ∧
      apiRequest t2 endpoint cfg2 st1 = (p, st1) ∧
      st1.executed = st.executed + 1 := by
  have hkey : getCacheKey endpoint cfg2 = getCacheKey endpoint cfg1 := by
    rw [getCacheKey, getCacheKey, hmeth, hbody]
  refine ⟨st.nextId,
    ⟨⟨getCacheKey endpoint cfg1, st.nextId, t1⟩ :: st.cache,
      st.nextId + 1, st.executed + 1⟩, ?_, ?_, rfl⟩
  · exact apiRequest_miss t1 endpoint cfg1 st hm1 hmiss
  · apply apiRequest_hit t2 endpoint cfg2 _ st.nextId hm2
    show cacheLookup (⟨getCacheKey endpoint cfg1, st.nextId, t1⟩ :: st.cache)
      (getCacheKey endpoint cfg2) t2 = some st.nextId
    rw [hkey]
    unfold cacheLookup
    rw [List.find?_cons]
    simp [hwin]

/-- Witness for C10: the same storage-usage GET repeated at 0ms and
4999ms against an empty cache. -/
theorem c10_get_requests_deduplicated_witness :
    ∃ p st1, apiRequest 0 "/users/storage" ⟨some "GET", [], none⟩ ⟨[], 0, 0⟩ = (p, st1) ∧
      apiRequest 4999 "/users/storage" ⟨some "GET", [], none⟩ st1 = (p, st1) ∧
      st1.executed = (⟨[], 0, 0⟩ : ApiState).executed + 1 :=
  c10_get_requests_deduplicated ⟨[], 0, 0⟩ "/users/storage"
    ⟨some "GET", [], none⟩ ⟨some "GET", [], none⟩ 0 4999
    (by decide) (by decide) rfl rfl (by decide) (by decide)
